import Mathlib

/-!
Verification of the invoice_parser repository (Streamlit invoice-extraction
scripts: `invoice.py`, `multi_paged_invoice.py`,
`multi_paged_invoice_multi_files.py`).

The development shallowly embeds the parts of the scripts that the spec's
claims are about:

* the JSON reply parsing step, `json.loads(info_text[info_text.find("{") :
  info_text.rfind("}") + 1])`, including Python's `find`/`rfind`/slice
  semantics (with `-1` for "not found") and a model of Python's `json.loads`
  as an executable recursive-descent parser over `List Char`;
* the PDF rasterization helper `pdf_to_images` (PyMuPDF `get_pixmap(dpi=150)`
  + `Image.frombytes`), with the external rasterizer abstracted as a
  deterministic function in an environment record;
* the per-upload control flow of `invoice.py` (temp file, PDF-text vs image
  branch, network call, parse, display) and the per-file batch loop of
  `multi_paged_invoice_multi_files.py` (temp file per upload, uncaught
  decode exceptions, caught transport/parse errors, `all_extracted_data`);
* the first-file dispatch of `multi_paged_invoice.py`.

External effects (pypdf, PyMuPDF, PIL decoding, the Gemini call) are modelled
as oracles: per-document fields give each library call's outcome, and an
`Env` record carries the rasterizer and the network transport.
-/

namespace Invoice

/-! ### JSON values and a model of Python `json.loads`

`J` is the JSON value produced by `json.loads`.  Numbers are kept as their
validated lexeme (the claims under verification never depend on numeric
interpretation, only on which slice parses and to which object).  Objects
are key/value lists; as in a Python `dict`, a repeated key keeps its first
position and the latest value.
-/

inductive J where
  | null
  | bool (b : Bool)
  | num (lexeme : List Char)
  | str (s : List Char)
  | arr (elems : List J)
  | obj (fields : List (List Char × J))

def isWs (c : Char) : Bool :=
  c == ' ' || c == '\t' || c == '\n' || c == '\r'

def skipWs : List Char → List Char
  | [] => []
  | c :: cs => if isWs c then skipWs cs else c :: cs

def isDigit (c : Char) : Bool := '0' ≤ c && c ≤ '9'

def hexVal? (c : Char) : Option Nat :=
  if '0' ≤ c ∧ c ≤ '9' then some (c.toNat - 48)
  else if 'a' ≤ c ∧ c ≤ 'f' then some (c.toNat - 87)
  else if 'A' ≤ c ∧ c ≤ 'F' then some (c.toNat - 55)
  else none

def escChar? (c : Char) : Option Char :=
  if c = '"' ∨ c = '\\' ∨ c = '/' then some c
  else if c = 'b' then some (Char.ofNat 8)
  else if c = 'f' then some (Char.ofNat 12)
  else if c = 'n' then some '\n'
  else if c = 'r' then some (Char.ofNat 13)
  else if c = 't' then some '\t'
  else none

/-- Body of a JSON string after the opening quote: returns the decoded
characters and the remaining input after the closing quote.  Raw control
characters are rejected, as by Python's (strict) `json.loads`. -/
def parseStringBody : List Char → Option (List Char × List Char)
  | [] => none
  | '"' :: rest => some ([], rest)
  | '\\' :: 'u' :: h1 :: h2 :: h3 :: h4 :: rest => do
      let a ← hexVal? h1
      let b ← hexVal? h2
      let c ← hexVal? h3
      let d ← hexVal? h4
      let (s, r) ← parseStringBody rest
      some (Char.ofNat (((a * 16 + b) * 16 + c) * 16 + d) :: s, r)
  | '\\' :: e :: rest => do
      let c ← escChar? e
      let (s, r) ← parseStringBody rest
      some (c :: s, r)
  | c :: rest =>
      if c.toNat < 32 then none
      else do
        let (s, r) ← parseStringBody rest
        some (c :: s, r)

def parseIntPart : List Char → Option (List Char × List Char)
  | '0' :: rest => some (['0'], rest)
  | c :: rest =>
      if isDigit c then
        some (c :: rest.takeWhile isDigit, rest.dropWhile isDigit)
      else none
  | [] => none

def parseFracPart : List Char → Option (List Char × List Char)
  | '.' :: rest =>
      match rest.takeWhile isDigit with
      | [] => none
      | ds => some ('.' :: ds, rest.dropWhile isDigit)
  | s => some ([], s)

def parseExpPart : List Char → Option (List Char × List Char)
  | [] => some ([], [])
  | c :: rest =>
      if c = 'e' ∨ c = 'E' then
        match rest with
        | s :: r2 =>
            if s = '+' ∨ s = '-' then
              match r2.takeWhile isDigit with
              | [] => none
              | ds => some (c :: s :: ds, r2.dropWhile isDigit)
            else
              match rest.takeWhile isDigit with
              | [] => none
              | ds => some (c :: ds, rest.dropWhile isDigit)
        | [] => none
      else some ([], c :: rest)

/-- A JSON number token (Python also accepts `NaN`, `Infinity`,
`-Infinity`): returns the lexeme and the remaining input. -/
def parseNumber (s : List Char) : Option (List Char × List Char) :=
  match s with
  | '-' :: 'I' :: 'n' :: 'f' :: 'i' :: 'n' :: 'i' :: 't' :: 'y' :: r =>
      some (('-' :: ("Infinity").toList), r)
  | _ =>
    let (neg, s1) : List Char × List Char :=
      match s with
      | '-' :: r => (['-'], r)
      | _ => ([], s)
    match parseIntPart s1 with
    | none => none
    | some (ip, s2) =>
      match parseFracPart s2 with
      | none => none
      | some (fp, s3) =>
        match parseExpPart s3 with
        | none => none
        | some (ep, s4) => some (neg ++ ip ++ fp ++ ep, s4)

/-- Insert a key into an object's field list with Python `dict` semantics:
a repeated key keeps its original position and takes the new value. -/
def insertKey (fs : List (List Char × J)) (k : List Char) (v : J) :
    List (List Char × J) :=
  match fs with
  | [] => [(k, v)]
  | (k', v') :: rest =>
      if k' = k then (k', v) :: rest else (k', v') :: insertKey rest k v

mutual

/-- One JSON value, input assumed already whitespace-trimmed at the front. -/
def parseVal : Nat → List Char → Option (J × List Char)
  | 0, _ => none
  | Nat.succ fuel, s =>
    match s with
    | '{' :: rest =>
        (match skipWs rest with
         | '}' :: r2 => some (J.obj [], r2)
         | r2 => do
             let (fs, r3) ← parseMembers fuel r2 []
             some (J.obj fs, r3))
    | '[' :: rest =>
        (match skipWs rest with
         | ']' :: r2 => some (J.arr [], r2)
         | r2 => do
             let (es, r3) ← parseElems fuel r2
             some (J.arr es, r3))
    | '"' :: rest => do
        let (cs, r2) ← parseStringBody rest
        some (J.str cs, r2)
    | 't' :: 'r' :: 'u' :: 'e' :: r => some (J.bool true, r)
    | 'f' :: 'a' :: 'l' :: 's' :: 'e' :: r => some (J.bool false, r)
    | 'n' :: 'u' :: 'l' :: 'l' :: r => some (J.null, r)
    | 'N' :: 'a' :: 'N' :: r => some (J.num ("NaN").toList, r)
    | 'I' :: 'n' :: 'f' :: 'i' :: 'n' :: 'i' :: 't' :: 'y' :: r =>
        some (J.num ("Infinity").toList, r)
    | s' => do
        let (lex, r) ← parseNumber s'
        some (J.num lex, r)

/-- Object members, starting at a key's opening quote. -/
def parseMembers :
    Nat → List Char → List (List Char × J) →
      Option (List (List Char × J) × List Char)
  | 0, _, _ => none
  | Nat.succ fuel, s, acc =>
    match s with
    | '"' :: rest => do
        let (k, r2) ← parseStringBody rest
        (match skipWs r2 with
         | ':' :: r3 => do
             let (v, r4) ← parseVal fuel (skipWs r3)
             (match skipWs r4 with
              | ',' :: r5 => parseMembers fuel (skipWs r5) (insertKey acc k v)
              | '}' :: r5 => some (insertKey acc k v, r5)
              | _ => none)
         | _ => none)
    | _ => none

/-- Array elements, starting at a value's first character. -/
def parseElems : Nat → List Char → Option (List J × List Char)
  | 0, _ => none
  | Nat.succ fuel, s => do
      let (v, r) ← parseVal fuel s
      (match skipWs r with
       | ',' :: r2 => do
           let (es, r3) ← parseElems fuel (skipWs r2)
           some (v :: es, r3)
       | ']' :: r2 => some ([v], r2)
       | _ => none)

end

/-- Model of Python's `json.loads`: decode the whole input as one JSON
value, allowing surrounding whitespace; `none` models `json.JSONDecodeError`. -/
def jsonLoads (s : List Char) : Option J :=
  match parseVal (s.length + 1) (skipWs s) with
  | none => none
  | some (v, rest) => if skipWs rest = [] then some v else none

/-! ### Python `str.find` / `str.rfind` / slicing

Text is `List Char`.  `pyFind`/`pyRfind` return `-1` when the character is
absent, as in Python; `pySlice` implements Python's `s[a:b]` index
normalization (negative indices count from the end, then clamp). -/

/-- Index of the first occurrence of `c`, if any. -/
def firstIdxAux (c : Char) : List Char → Option Nat
  | [] => none
  | a :: rest =>
      if a = c then some 0 else (firstIdxAux c rest).map (· + 1)

/-- Index of the last occurrence of `c`, if any. -/
def lastIdx (t : List Char) (c : Char) : Option Nat :=
  (firstIdxAux c t.reverse).map (fun k => t.length - 1 - k)

/-- Python `t.find(c)`. -/
def pyFind (t : List Char) (c : Char) : Int :=
  match firstIdxAux c t with
  | some i => (i : Int)
  | none => -1

/-- Python `t.rfind(c)`. -/
def pyRfind (t : List Char) (c : Char) : Int :=
  match lastIdx t c with
  | some j => (j : Int)
  | none => -1

/-- Normalize a Python slice endpoint against length `n`. -/
def pyIdx (n : Nat) (i : Int) : Nat :=
  if i < 0 then (i + n).toNat else min i.toNat n

/-- Python `t[a:b]`. -/
def pySlice (t : List Char) (a b : Int) : List Char :=
  (t.drop (pyIdx t.length a)).take (pyIdx t.length b - pyIdx t.length a)

/-- The slice the scripts take from the model reply:
`info_text[info_text.find("{") : info_text.rfind("}") + 1]`. -/
def codeSlice (t : List Char) : List Char :=
  pySlice t (pyFind t '{') (pyRfind t '}' + 1)

/-- The parse step shared by all three scripts:
`json.loads(info_text[info_text.find("{") : info_text.rfind("}") + 1])`,
with `none` for the caught `json.JSONDecodeError` branch. -/
def parse_step (t : List Char) : Option J :=
  jsonLoads (codeSlice t)

/-- The substring from the first `{` to the last `}` (inclusive), described
positionally as in the spec, without Python's negative-index semantics;
`[]` when either brace is missing. -/
def sliceFL (t : List Char) : List Char :=
  match firstIdxAux '{' t, lastIdx t '}' with
  | some i, some j => (t.drop i).take (j + 1 - i)
  | _, _ => []

/-! ### Documents, rasterization and the external environment -/

/-- A decoded bitmap (PIL `Image`). -/
structure Img where
  width : Nat
  height : Nat
  bits : List Nat
deriving DecidableEq

/-- A PyMuPDF pixmap as returned by `page.get_pixmap(dpi=...)`. -/
structure Pixmap where
  width : Nat
  height : Nat
  samples : List Nat
deriving DecidableEq

/-- `Image.frombytes("RGB", [pix.width, pix.height], pix.samples)`. -/
def frombytes (p : Pixmap) : Img :=
  { width := p.width, height := p.height, bits := p.samples }

/-- One PDF page: the text pypdf's `extract_text` returns for it, and an
abstract identifier of its graphical content, consumed by the rasterizer. -/
structure Page where
  text : List Char
  content : Nat
deriving DecidableEq

/-- The external world the scripts call into: the PyMuPDF rasterizer
(`get_pixmap`, a deterministic function of page content and dpi) and the
Gemini transport, keyed by the uploaded file's name (`.ok` carries
`response.text`, `.error` models a raised exception). -/
structure Env where
  render : Nat → Nat → Pixmap
  transport : List Char → Except Unit (List Char)

/-- `pdf_to_images` from `multi_paged_invoice.py` /
`multi_paged_invoice_multi_files.py`: one image per page, in page order,
each rasterized via `page.get_pixmap(dpi=150)` and `Image.frombytes`. -/
def pdf_to_images (env : Env) (pages : List Page) : List Img :=
  pages.map (fun p => frombytes (env.render p.content 150))

inductive Mime where
  | pdf
  | image
deriving DecidableEq

/-! ### `invoice.py`: one upload per run -/

/-- One uploaded document for `invoice.py`, with the outcomes of the
library calls made on it: `pdfPages` is `PdfReader(...).pages`'s extracted
texts (`none` models the constructor raising), `imageOk` is
`Image.open`'s result (`none` models a raised decode error). -/
structure InvoiceDoc where
  name : List Char
  mime : Mime
  pdfPages : Option (List (List Char))
  imageOk : Option Img

/-- What `invoice.py` sends to `generate_content`: first-page text for the
PDF branch, the decoded bitmap for the image branch. -/
inductive Payload1 where
  | text (t : List Char)
  | image (img : Img)
deriving DecidableEq

/-- Observable outcome of one `invoice.py` run: the network payload (if a
call was made), the parsed record, whether `st.error` was shown, whether an
uncaught exception escaped, and the temp-file counters (`tempsCreated`
total files written, `tempsLive` files still on disk at the end). -/
structure Run1 where
  payload : Option Payload1
  record : Option J
  errorShown : Bool
  crashed : Bool
  tempsCreated : Nat
  tempsLive : Nat

/-- The `if uploaded_file:` body of `invoice.py`: write a temp file, branch
on MIME type, call the model, slice-parse the reply, and delete the temp
file in the `finally:` block (so `tempsLive = 0` on every path). -/
def invoiceRun (env : Env) (d : InvoiceDoc) : Run1 :=
  match d.mime with
  | .pdf =>
    match d.pdfPages with
    | none =>
        { payload := none, record := none, errorShown := false,
          crashed := true, tempsCreated := 1, tempsLive := 0 }
    | some pgs =>
      let text_content := if 0 < pgs.length then pgs.headD [] else []
      let payload := Payload1.text text_content
      match env.transport d.name with
      | .error _ =>
          { payload := some payload, record := none, errorShown := true,
            crashed := false, tempsCreated := 1, tempsLive := 0 }
      | .ok t =>
        match parse_step t with
        | none =>
            { payload := some payload, record := none, errorShown := true,
              crashed := false, tempsCreated := 1, tempsLive := 0 }
        | some v =>
            { payload := some payload, record := some v, errorShown := false,
              crashed := false, tempsCreated := 1, tempsLive := 0 }
  | .image =>
    match d.imageOk with
    | none =>
        { payload := none, record := none, errorShown := false,
          crashed := true, tempsCreated := 1, tempsLive := 0 }
    | some img =>
      match env.transport d.name with
      | .error _ =>
          { payload := some (Payload1.image img), record := none,
            errorShown := true, crashed := false,
            tempsCreated := 1, tempsLive := 0 }
      | .ok t =>
        match parse_step t with
        | none =>
            { payload := some (Payload1.image img), record := none,
              errorShown := true, crashed := false,
              tempsCreated := 1, tempsLive := 0 }
        | some v =>
            { payload := some (Payload1.image img), record := some v,
              errorShown := false, crashed := false,
              tempsCreated := 1, tempsLive := 0 }

/-! ### `multi_paged_invoice_multi_files.py`: the per-file batch loop -/

/-- One uploaded file of the batch variant.  For PDF files, `pdfPages` is
the parsed page list (`none` = `PdfReader` raises); for images, `imageOk`
is `Image.open`'s result (`none` = raised decode error). -/
structure UpFile where
  name : List Char
  mime : Mime
  pdfPages : Option (List Page)
  imageOk : Option Img

/-- Mutable state of the batch loop: `entries` is `all_extracted_data`
(filename, parsed object), `imagesVar` is the ambient Python variable
`images` (`none` = not yet bound; reading it then raises `NameError`),
plus temp-file counters and the count of `st.error` messages shown. -/
structure BatchSt where
  entries : List (List Char × J)
  imagesVar : Option (List Img)
  tempsCreated : Nat
  tempsLive : Nat
  errors : Nat

/-- The loop body between temp-file creation and the `finally:` block.
`.error st` models an exception that no `except` catches (it aborts the
batch); `.ok st` is normal continuation.  Transport failures are caught by
`except Exception`, bad JSON by `except json.JSONDecodeError`: both show an
error and append nothing. -/
def bodyStep (env : Env) (f : UpFile) (st : BatchSt) :
    Except BatchSt BatchSt :=
  match f.mime with
  | .pdf =>
    match f.pdfPages with
    | none => .error st
    | some pages =>
      let st1 :=
        if 0 < pages.length then
          { st with imagesVar := some (pdf_to_images env pages) }
        else st
      match st1.imagesVar with
      | none => .error st1
      | some _ =>
        match env.transport f.name with
        | .error _ => .ok { st1 with errors := st1.errors + 1 }
        | .ok text =>
          match parse_step text with
          | none => .ok { st1 with errors := st1.errors + 1 }
          | some v =>
              .ok { st1 with entries := st1.entries ++ [(f.name, v)] }
  | .image =>
    match f.imageOk with
    | none => .error st
    | some _ =>
      match env.transport f.name with
      | .error _ => .ok { st with errors := st.errors + 1 }
      | .ok text =>
        match parse_step text with
        | none => .ok { st with errors := st.errors + 1 }
        | some v => .ok { st with entries := st.entries ++ [(f.name, v)] }

/-- `tempfile.NamedTemporaryFile(delete=False)` + write. -/
def addTemp (st : BatchSt) : BatchSt :=
  { st with tempsCreated := st.tempsCreated + 1,
            tempsLive := st.tempsLive + 1 }

/-- The `finally:` block: `os.unlink(tmp_file_path)`. -/
def delTemp (st : BatchSt) : BatchSt :=
  { st with tempsLive := st.tempsLive - 1 }

/-- One iteration of `for uploaded_file in uploaded_files:`: temp file,
body, `finally:` delete — the delete runs whether or not the body raised. -/
def stepFile (env : Env) (f : UpFile) (st : BatchSt) :
    Except BatchSt BatchSt :=
  match bodyStep env f (addTemp st) with
  | .ok s => .ok (delTemp s)
  | .error s => .error (delTemp s)

/-- The whole batch loop.  The second component records whether an uncaught
exception aborted the loop (leaving later files unprocessed). -/
def runBatch (env : Env) : List UpFile → BatchSt → BatchSt × Bool
  | [], st => (st, false)
  | f :: fs, st =>
    match stepFile env f st with
    | .ok st' => runBatch env fs st'
    | .error st' => (st', true)

/-- The initial batch state (`all_extracted_data = []`, `images` unbound). -/
def st0 : BatchSt :=
  { entries := [], imagesVar := none, tempsCreated := 0, tempsLive := 0,
    errors := 0 }

/-- The entry a file contributes when everything after decoding succeeds:
`none` when the transport raises or the reply does not parse. -/
def success (env : Env) (f : UpFile) : Option (List Char × J) :=
  match env.transport f.name with
  | .error _ => none
  | .ok text => (parse_step text).map (fun v => (f.name, v))

/-- Decoding succeeds and leaves no lurking `NameError`: a PDF file has a
readable, non-empty page list; an image file decodes. -/
def decodeOk (f : UpFile) : Bool :=
  match f.mime with
  | .pdf =>
    match f.pdfPages with
    | some ps => 0 < ps.length
    | none => false
  | .image => f.imageOk.isSome

/-! ### `multi_paged_invoice.py`: first-file dispatch -/

/-- One uploaded file of the multi-image variant; `content` stands for the
raw bytes `pathlib.Path(tmp_file_path).read_bytes()` would send. -/
structure MFile where
  name : List Char
  mime : Mime
  content : Nat
  pdfPages : Option (List Page)
  imageOk : Option Img

/-- What `multi_paged_invoice.py` sends in its single `generate_content`
call: the first file's whole PDF bytes, or the decoded bitmaps of all
uploaded files. -/
inductive MPayload where
  | pdfBytes (content : Nat)
  | images (imgs : List Img)
deriving DecidableEq

/-- Observable outcome of one `multi_paged_invoice.py` run. -/
structure MRun where
  payload : Option MPayload
  record : Option J
  errorShown : Bool
  crashed : Bool
  callCount : Nat

/-- `Image.open` on every uploaded file, failing as soon as one raises. -/
def seqImgs : List MFile → Option (List Img)
  | [] => some []
  | g :: gs =>
    match g.imageOk with
    | none => none
    | some i => (seqImgs gs).map (fun is => i :: is)

/-- The `if len(uploaded_files) > 0:` body of `multi_paged_invoice.py`.
All dispatch is on `uploaded_files[0]`: the PDF branch sends only the first
file's bytes and never touches the rest; the image branch opens every
uploaded file and sends them together in one call.  A zero-page PDF leaves
`images` unbound and the preview loop raises `NameError` (crash). -/
def multiRun (env : Env) (files : List MFile) : MRun :=
  match files with
  | [] =>
      { payload := none, record := none, errorShown := false,
        crashed := false, callCount := 0 }
  | f :: rest =>
    match f.mime with
    | .pdf =>
      match f.pdfPages with
      | none =>
          { payload := none, record := none, errorShown := false,
            crashed := true, callCount := 0 }
      | some pgs =>
        if 0 < pgs.length then
          match env.transport f.name with
          | .error _ =>
              { payload := some (MPayload.pdfBytes f.content), record := none,
                errorShown := true, crashed := false, callCount := 1 }
          | .ok t =>
            match parse_step t with
            | none =>
                { payload := some (MPayload.pdfBytes f.content),
                  record := none, errorShown := true, crashed := false,
                  callCount := 1 }
            | some v =>
                { payload := some (MPayload.pdfBytes f.content),
                  record := some v, errorShown := false, crashed := false,
                  callCount := 1 }
        else
          { payload := none, record := none, errorShown := false,
            crashed := true, callCount := 0 }
    | .image =>
      match seqImgs (f :: rest) with
      | none =>
          { payload := none, record := none, errorShown := false,
            crashed := true, callCount := 0 }
      | some imgs =>
        match env.transport f.name with
        | .error _ =>
            { payload := some (MPayload.images imgs), record := none,
              errorShown := true, crashed := false, callCount := 1 }
        | .ok t =>
          match parse_step t with
          | none =>
              { payload := some (MPayload.images imgs), record := none,
                errorShown := true, crashed := false, callCount := 1 }
          | some v =>
              { payload := some (MPayload.images imgs), record := some v,
                errorShown := false, crashed := false, callCount := 1 }

/-! ### Auxiliary observers used by the claims -/

/-- Top-level key list of a JSON object. -/
def objKeys : J → List (List Char)
  | J.obj fs => fs.map (fun kv => kv.1)
  | _ => []

/-- The schema declared in the extraction prompt of
`multi_paged_invoice_multi_files.py` (13 fields, no `line_items`). -/
def declaredSchema : List (List Char) :=
  [("invoice_date").toList, ("invoice_number").toList,
   ("purchase_order_number").toList, ("purchase_order_date").toList,
   ("phone_number").toList, ("customer_name").toList,
   ("supplier_name").toList, ("supplier_address").toList,
   ("customer_address").toList, ("sub_total").toList,
   ("total_tax_amount").toList, ("total_amount").toList,
   ("currency").toList]

/-- Brace balance check: every `}` matches an earlier `{` and all `{` are
closed. -/
def bracesBalAux : List Char → Nat → Bool
  | [], d => d = 0
  | '{' :: r, d => bracesBalAux r (d + 1)
  | '}' :: r, d =>
    match d with
    | 0 => false
    | Nat.succ d' => bracesBalAux r d'
  | _ :: r, d => bracesBalAux r d

def bracesBalanced (t : List Char) : Bool := bracesBalAux t 0

/-- `true` when every substring of `t` that `json.loads` would accept as a
JSON object is the empty object — i.e. the only object value embedded in
`t` is the empty one. -/
def allObjSubstringsEmpty (t : List Char) : Bool :=
  (List.range (t.length + 1)).all fun i =>
    (List.range (t.length + 1)).all fun l =>
      match jsonLoads ((t.drop i).take l) with
      | some (J.obj fs) => fs.isEmpty
      | _ => true

/-- Concrete values used to instantiate claims. -/
def img1 : Img := { width := 1, height := 1, bits := [0] }

def pageOne : Page := { text := ("hello").toList, content := 0 }

def imgD : Img := { width := 0, height := 0, bits := [] }

def pageD : Page := { text := [], content := 0 }

def render0 : Nat → Nat → Pixmap :=
  fun _ _ => { width := 0, height := 0, samples := [] }

/-- Environment whose transport always replies with the empty JSON object. -/
def env0 : Env :=
  { render := render0, transport := fun _ => .ok (("\x7b\x7d").toList) }

/-- Environment whose transport replies with an object having one key,
`foo`, that is not in the declared schema. -/
def envFoo : Env :=
  { render := render0,
    transport := fun _ => .ok (("\x7b\"foo\": \"bar\"\x7d").toList) }

/-- Environment whose transport replies with prose containing no JSON. -/
def envNoJson : Env :=
  { render := render0, transport := fun _ => .ok (("no json here").toList) }

/-- Environment whose transport always raises, with the same rasterizer as
`env0`. -/
def envT1 : Env :=
  { render := render0, transport := fun _ => .error () }

def fileA : UpFile :=
  { name := ("a").toList, mime := .image, pdfPages := none,
    imageOk := some img1 }

/-- An image upload whose `Image.open` raises (corrupt document). -/
def fileB : UpFile :=
  { name := ("b").toList, mime := .image, pdfPages := none, imageOk := none }

def fileC : UpFile :=
  { name := ("c").toList, mime := .image, pdfPages := none,
    imageOk := some img1 }

def fileD : UpFile :=
  { name := ("d").toList, mime := .pdf, pdfPages := some [pageOne],
    imageOk := none }

/-- A zero-page PDF upload for `invoice.py`. -/
def docZero : InvoiceDoc :=
  { name := ("z").toList, mime := .pdf, pdfPages := some [], imageOk := none }

def docPdfOne : InvoiceDoc :=
  { name := ("p").toList, mime := .pdf, pdfPages := some [("hello").toList],
    imageOk := none }

def docImg : InvoiceDoc :=
  { name := ("i").toList, mime := .image, pdfPages := none,
    imageOk := some img1 }

def mf1 : MFile :=
  { name := ("a").toList, mime := .pdf, content := 7,
    pdfPages := some [pageOne], imageOk := none }

def mf2 : MFile :=
  { name := ("b").toList, mime := .image, content := 8, pdfPages := none,
    imageOk := some img1 }

def mf3 : MFile :=
  { name := ("c").toList, mime := .image, content := 9, pdfPages := none,
    imageOk := some img1 }

/-- The C1 counterexample reply: prose around the one embedded object
`\x7b\x7d`, with an extra brace pair in the prose keeping the whole string
balanced and a `\x7d` in the trailing prose. -/
def t1cex : List Char := ("a\x7bb \x7b\x7d c\x7d").toList

/-- Collapse an `Except` whose two sides carry the same state type. -/
def exVal : Except BatchSt BatchSt → BatchSt
  | .ok s => s
  | .error s => s

/-! ### Helper lemmas: first and last occurrence of a character -/

theorem firstIdxAux_append_cons (c : Char) (l r : List Char) (h : c ∉ l) :
    firstIdxAux c (l ++ c :: r) = some l.length := by
  induction l with
  | nil => simp [firstIdxAux]
  | cons a l ih =>
    have ha : ¬(a = c) := fun e => h (by simp [e])
    have h' : c ∉ l := fun hc => h (List.mem_cons_of_mem _ hc)
    simp [firstIdxAux, ha, ih h']

theorem firstIdxAux_lt_length {c : Char} :
    ∀ {t : List Char} {i : Nat}, firstIdxAux c t = some i → i < t.length := by
  intro t
  induction t with
  | nil => intro i h; simp [firstIdxAux] at h
  | cons a r ih =>
    intro i h
    by_cases ha : a = c
    · simp [firstIdxAux, ha] at h
      subst h
      simp
    · simp [firstIdxAux, ha, Option.map_eq_some'] at h
      obtain ⟨k, hk, rfl⟩ := h
      have := ih hk
      simp
      omega

theorem firstIdxAux_isSome {c : Char} {t : List Char} (h : c ∈ t) :
    (firstIdxAux c t).isSome := by
  induction t with
  | nil => simp at h
  | cons a r ih =>
    by_cases ha : a = c
    · simp [firstIdxAux, ha]
    · have hm : c ∈ r := by
        rcases List.mem_cons.mp h with h1 | h1
        · exact absurd h1.symm ha
        · exact h1
      simp [firstIdxAux, ha]
      exact ih hm

theorem firstIdxAux_eq_none {c : Char} {t : List Char} (h : c ∉ t) :
    firstIdxAux c t = none := by
  induction t with
  | nil => rfl
  | cons a r ih =>
    have ha : ¬(a = c) := fun e => h (by simp [e])
    have h' : c ∉ r := fun hc => h (List.mem_cons_of_mem _ hc)
    simp [firstIdxAux, ha, ih h']

theorem firstIdxAux_decomp {c : Char} :
    ∀ {t : List Char} {i : Nat}, firstIdxAux c t = some i →
      ∃ l r, t = l ++ c :: r ∧ l.length = i ∧ c ∉ l := by
  intro t
  induction t with
  | nil => intro i h; simp [firstIdxAux] at h
  | cons a s ih =>
    intro i h
    by_cases ha : a = c
    · subst ha
      simp [firstIdxAux] at h
      exact ⟨[], s, by simp, by simp [← h], by simp⟩
    · simp [firstIdxAux, ha, Option.map_eq_some'] at h
      obtain ⟨k, hk, rfl⟩ := h
      obtain ⟨l, r, rfl, hlen, hnl⟩ := ih hk
      refine ⟨a :: l, r, by simp, by simp [hlen], ?_⟩
      intro hc
      rcases List.mem_cons.mp hc with h1 | h1
      · exact ha h1.symm
      · exact hnl h1

theorem firstIdxAux_of_getD {c : Char} :
    ∀ {t : List Char} {i : Nat}, i < t.length → t.getD i ' ' = c →
      (∀ k, k < i → t.getD k ' ' ≠ c) → firstIdxAux c t = some i := by
  intro t
  induction t with
  | nil => intro i hi _ _; simp at hi
  | cons a s ih =>
    intro i hi hg hf
    cases i with
    | zero =>
      have : a = c := hg
      simp [firstIdxAux, this]
    | succ k =>
      have ha : ¬(a = c) := by
        have := hf 0 (Nat.succ_pos k)
        simpa using this
      have hk : firstIdxAux c s = some k := by
        refine ih (by simpa using hi) (by simpa using hg) ?_
        intro m hm
        have := hf (m + 1) (by omega)
        simpa using this
      simp [firstIdxAux, ha, hk]

theorem lastIdx_append_cons (c : Char) (l r : List Char) (h : c ∉ r) :
    lastIdx (l ++ c :: r) c = some l.length := by
  have hrev : (l ++ c :: r).reverse = r.reverse ++ c :: l.reverse := by simp
  have h' : c ∉ r.reverse := by simpa using h
  unfold lastIdx
  rw [hrev, firstIdxAux_append_cons c _ _ h']
  simp

theorem lastIdx_decomp {c : Char} {t : List Char} {j : Nat}
    (h : lastIdx t c = some j) :
    ∃ l r, t = l ++ c :: r ∧ l.length = j ∧ c ∉ r := by
  unfold lastIdx at h
  rw [Option.map_eq_some'] at h
  obtain ⟨k, hk, hj⟩ := h
  obtain ⟨l', r', hrev, hlen, hnl⟩ := firstIdxAux_decomp hk
  have ht : t = r'.reverse ++ c :: l'.reverse := by
    have := congrArg List.reverse hrev
    simpa using this
  have htl : t.length = l'.length + r'.length + 1 := by
    rw [ht]
    simp
    ring
  refine ⟨r'.reverse, l'.reverse, ht, ?_, by simpa using hnl⟩
  simp
  omega

theorem lastIdx_lt_length {c : Char} {t : List Char} {j : Nat}
    (h : lastIdx t c = some j) : j < t.length := by
  obtain ⟨l, r, rfl, hl, _⟩ := lastIdx_decomp h
  simp
  omega

theorem lastIdx_isSome {c : Char} {t : List Char} (h : c ∈ t) :
    (lastIdx t c).isSome := by
  obtain ⟨k, hk⟩ := Option.isSome_iff_exists.mp
    (firstIdxAux_isSome (t := t.reverse) (c := c) (by simpa using h))
  unfold lastIdx
  rw [hk]
  rfl

theorem lastIdx_eq_none {c : Char} {t : List Char} (h : c ∉ t) :
    lastIdx t c = none := by
  unfold lastIdx
  rw [firstIdxAux_eq_none (by simpa using h)]
  rfl

theorem lastIdx_of_getD {c : Char} {t : List Char} {j : Nat}
    (hj : j < t.length) (hg : t.getD j ' ' = c)
    (hl : ∀ k, j < k → k < t.length → t.getD k ' ' ≠ c) :
    lastIdx t c = some j := by
  have h2 : t[j] = c := by
    have e := List.getD_eq_getElem?_getD t j ' '
    rw [List.getElem?_eq_getElem hj] at e
    rw [hg] at e
    exact (Option.getD_some ▸ e).symm
  have hsplit : t = t.take j ++ c :: t.drop (j + 1) := by
    conv_lhs => rw [← List.take_append_drop j t]
    rw [List.drop_eq_getElem_cons hj, h2]
  have hnotin : c ∉ t.drop (j + 1) := by
    intro hc
    obtain ⟨m, hm, hget⟩ := List.mem_iff_getElem.mp hc
    have hidx : j + 1 + m < t.length := by
      simp [List.length_drop] at hm
      omega
    have hval : t[j + 1 + m]? = some c := by
      rw [← List.getElem?_drop, List.getElem?_eq_getElem hm]
      exact congrArg some hget
    refine hl (j + 1 + m) (by omega) hidx ?_
    rw [List.getD_eq_getElem?_getD, hval]
    rfl
  have hlen : (t.take j).length = j := by
    simp [List.length_take]
    omega
  calc lastIdx t c = lastIdx (t.take j ++ c :: t.drop (j + 1)) c := by
        rw [← hsplit]
    _ = some (t.take j).length := lastIdx_append_cons c _ _ hnotin
    _ = some j := by rw [hlen]

/-! ### Helper lemmas: the code's slice -/

theorem codeSlice_of_idx {t : List Char} {i j : Nat}
    (h1 : firstIdxAux '{' t = some i) (h2 : lastIdx t '}' = some j) :
    codeSlice t = (t.drop i).take (j + 1 - i) := by
  have hi := firstIdxAux_lt_length h1
  have hj := lastIdx_lt_length h2
  unfold codeSlice pySlice pyFind pyRfind
  rw [h1, h2]
  have e1 : pyIdx t.length (i : Int) = i := by
    unfold pyIdx
    rw [if_neg (by omega)]
    omega
  have e2 : pyIdx t.length ((j : Int) + 1) = j + 1 := by
    unfold pyIdx
    rw [if_neg (by omega)]
    omega
  rw [e1, e2]

theorem codeSlice_noPair {t : List Char} (h : ¬('{' ∈ t ∧ '}' ∈ t)) :
    jsonLoads (codeSlice t) = none := by
  by_cases hb : '}' ∈ t
  · have hnb : '{' ∉ t := fun hh => h ⟨hh, hb⟩
    obtain ⟨j, hj⟩ := Option.isSome_iff_exists.mp (lastIdx_isSome hb)
    obtain ⟨l, r, rfl, hl, hnr⟩ := lastIdx_decomp hj
    unfold codeSlice pySlice pyFind pyRfind
    rw [firstIdxAux_eq_none hnb, hj]
    cases r with
    | nil =>
      have hlen : (l ++ ['}']).length = l.length + 1 := by simp
      have e1 : pyIdx (l ++ ['}']).length (-1) = l.length := by
        unfold pyIdx
        rw [if_pos (by omega)]
        omega
      have e2 : pyIdx (l ++ ['}']).length ((j : Int) + 1) = l.length + 1 := by
        unfold pyIdx
        rw [if_neg (by omega)]
        omega
      rw [e1, e2]
      have hd : (l ++ ['}']).drop l.length = ['}'] := List.drop_left l ['}']
      rw [hd]
      norm_num
      rfl
    | cons x r' =>
      have hlen : (l ++ '}' :: x :: r').length = l.length + r'.length + 2 := by
        simp
        omega
      have e2 : pyIdx (l ++ '}' :: x :: r').length ((j : Int) + 1) = j + 1 := by
        unfold pyIdx
        rw [if_neg (by omega)]
        omega
      have e1 : pyIdx (l ++ '}' :: x :: r').length (-1)
          = l.length + r'.length + 1 := by
        unfold pyIdx
        rw [if_pos (by omega)]
        omega
      rw [e1, e2]
      have : j + 1 - (l.length + r'.length + 1) = 0 := by omega
      rw [this]
      rfl
  · unfold codeSlice pySlice pyFind pyRfind
    rw [lastIdx_eq_none hb]
    have e2 : pyIdx t.length (-1 + 1) = 0 := by
      unfold pyIdx
      rw [if_neg (by omega)]
      omega
    rw [e2]
    have : (0 : Nat) - pyIdx t.length (pyFind t '{') = 0 := by omega
    cases hfi : firstIdxAux '{' t with
    | none =>
      simp only [pyFind, hfi]
      rw [Nat.zero_sub]
      rfl
    | some i =>
      simp only [pyFind, hfi]
      rw [Nat.zero_sub]
      rfl

theorem codeSlice_pair_eq_sliceFL {t : List Char} (h1 : '{' ∈ t)
    (h2 : '}' ∈ t) : codeSlice t = sliceFL t := by
  obtain ⟨i, hi⟩ := Option.isSome_iff_exists.mp (firstIdxAux_isSome h1)
  obtain ⟨j, hj⟩ := Option.isSome_iff_exists.mp (lastIdx_isSome h2)
  rw [codeSlice_of_idx hi hj]
  unfold sliceFL
  rw [hi, hj]

theorem codeSlice_embedded (pre s post mid init : List Char)
    (hs1 : s = '{' :: mid) (hs2 : s = init ++ ['}'])
    (hpre : '{' ∉ pre) (hpost : '}' ∉ post) :
    codeSlice (pre ++ s ++ post) = s := by
  have hfi : firstIdxAux '{' (pre ++ s ++ post) = some pre.length := by
    have e : pre ++ s ++ post = pre ++ '{' :: (mid ++ post) := by
      rw [hs1]
      simp
    rw [e]
    exact firstIdxAux_append_cons _ _ _ hpre
  have hla : lastIdx (pre ++ s ++ post) '}'
      = some (pre.length + init.length) := by
    have e : pre ++ s ++ post = (pre ++ init) ++ '}' :: post := by
      rw [hs2]
      simp
    rw [e, lastIdx_append_cons _ _ _ hpost]
    simp
  rw [codeSlice_of_idx hfi hla]
  have hslen : s.length = init.length + 1 := by
    rw [hs2]
    simp
  have harith : pre.length + init.length + 1 - pre.length = s.length := by
    omega
  rw [harith, List.append_assoc, List.drop_left, List.take_left]


/-! ### Helper lemmas: the batch loop -/


theorem exVal_bodyStep_temps (env : Env) (f : UpFile) (st : BatchSt) :
    (exVal (bodyStep env f st)).tempsCreated = st.tempsCreated ∧
    (exVal (bodyStep env f st)).tempsLive = st.tempsLive := by
  obtain ⟨nm, mm, pp, io⟩ := f
  cases mm with
  | pdf =>
    cases pp with
    | none => exact ⟨rfl, rfl⟩
    | some pages =>
      by_cases h0 : 0 < pages.length
      · cases ht : env.transport nm with
        | error e => simp [bodyStep, h0, ht, exVal]
        | ok text =>
          cases hv : parse_step text with
          | none => simp [bodyStep, h0, ht, hv, exVal]
          | some v => simp [bodyStep, h0, ht, hv, exVal]
      · cases hsi : st.imagesVar with
        | none => simp [bodyStep, h0, hsi, exVal]
        | some imgs =>
          cases ht : env.transport nm with
          | error e => simp [bodyStep, h0, hsi, ht, exVal]
          | ok text =>
            cases hv : parse_step text with
            | none => simp [bodyStep, h0, hsi, ht, hv, exVal]
            | some v => simp [bodyStep, h0, hsi, ht, hv, exVal]
  | image =>
    cases io with
    | none => exact ⟨rfl, rfl⟩
    | some img =>
      cases ht : env.transport nm with
      | error e => simp [bodyStep, ht, exVal]
      | ok text =>
        cases hv : parse_step text with
        | none => simp [bodyStep, ht, hv, exVal]
        | some v => simp [bodyStep, ht, hv, exVal]

theorem exVal_stepFile (env : Env) (f : UpFile) (st : BatchSt) :
    exVal (stepFile env f st) = delTemp (exVal (bodyStep env f (addTemp st))) := by
  unfold stepFile
  cases h : bodyStep env f (addTemp st) <;> simp [exVal]

theorem stepFile_isOk_of_decodeOk (env : Env) (f : UpFile) (st : BatchSt)
    (h : decodeOk f = true) : (stepFile env f st).isOk = true := by
  obtain ⟨nm, mm, pp, io⟩ := f
  cases mm with
  | pdf =>
    cases pp with
    | none => simp [decodeOk] at h
    | some pages =>
      have h0 : 0 < pages.length := by simpa [decodeOk] using h
      cases ht : env.transport nm with
      | error e => simp [stepFile, bodyStep, h0, ht, Except.isOk, Except.toBool]
      | ok text =>
        cases hv : parse_step text with
        | none => simp [stepFile, bodyStep, h0, ht, hv, Except.isOk, Except.toBool]
        | some v => simp [stepFile, bodyStep, h0, ht, hv, Except.isOk, Except.toBool]
  | image =>
    cases io with
    | none => simp [decodeOk] at h
    | some img =>
      cases ht : env.transport nm with
      | error e => simp [stepFile, bodyStep, ht, Except.isOk, Except.toBool]
      | ok text =>
        cases hv : parse_step text with
        | none => simp [stepFile, bodyStep, ht, hv, Except.isOk, Except.toBool]
        | some v => simp [stepFile, bodyStep, ht, hv, Except.isOk, Except.toBool]

theorem exVal_stepFile_entries_of_decodeOk (env : Env) (f : UpFile)
    (st : BatchSt) (h : decodeOk f = true) :
    (exVal (stepFile env f st)).entries
      = st.entries ++ (success env f).toList := by
  obtain ⟨nm, mm, pp, io⟩ := f
  cases mm with
  | pdf =>
    cases pp with
    | none => simp [decodeOk] at h
    | some pages =>
      have h0 : 0 < pages.length := by simpa [decodeOk] using h
      cases ht : env.transport nm with
      | error e => simp [stepFile, bodyStep, h0, ht, exVal, success, addTemp, delTemp]
      | ok text =>
        cases hv : parse_step text with
        | none => simp [stepFile, bodyStep, h0, ht, hv, exVal, success, addTemp, delTemp]
        | some v => simp [stepFile, bodyStep, h0, ht, hv, exVal, success, addTemp, delTemp]
  | image =>
    cases io with
    | none => simp [decodeOk] at h
    | some img =>
      cases ht : env.transport nm with
      | error e => simp [stepFile, bodyStep, ht, exVal, success, addTemp, delTemp]
      | ok text =>
        cases hv : parse_step text with
        | none => simp [stepFile, bodyStep, ht, hv, exVal, success, addTemp, delTemp]
        | some v => simp [stepFile, bodyStep, ht, hv, exVal, success, addTemp, delTemp]


theorem stepFile_temps (env : Env) (f : UpFile) (st : BatchSt) :
    (exVal (stepFile env f st)).tempsCreated = st.tempsCreated + 1 ∧
    (exVal (stepFile env f st)).tempsLive = st.tempsLive := by
  rw [exVal_stepFile]
  obtain ⟨h1, h2⟩ := exVal_bodyStep_temps env f (addTemp st)
  refine ⟨?_, ?_⟩
  · simp [delTemp, addTemp] at h1 ⊢
    omega
  · simp [delTemp, addTemp] at h2 ⊢
    omega

theorem runBatch_tempsLive (env : Env) :
    ∀ (files : List UpFile) (st : BatchSt),
      (runBatch env files st).1.tempsLive = st.tempsLive := by
  intro files
  induction files with
  | nil => intro st; rfl
  | cons f fs ih =>
    intro st
    have htemps := (stepFile_temps env f st).2
    cases hsf : stepFile env f st with
    | ok st' =>
      rw [hsf] at htemps
      simp [runBatch, hsf, ih st']
      exact htemps
    | error st' =>
      rw [hsf] at htemps
      simp [runBatch, hsf]
      exact htemps

theorem runBatch_all_ok (env : Env) :
    ∀ (files : List UpFile), (∀ f ∈ files, decodeOk f = true) →
      ∀ st : BatchSt,
      (runBatch env files st).2 = false ∧
      (runBatch env files st).1.entries
        = st.entries ++ files.filterMap (success env) := by
  intro files
  induction files with
  | nil => intro _ st; exact ⟨rfl, by simp [runBatch]⟩
  | cons f fs ih =>
    intro hall st
    have hf : decodeOk f = true := hall f (List.mem_cons_self f fs)
    have hfs : ∀ g ∈ fs, decodeOk g = true := fun g hg =>
      hall g (List.mem_cons_of_mem f hg)
    have hok := stepFile_isOk_of_decodeOk env f st hf
    cases hsf : stepFile env f st with
    | error st' =>
      rw [hsf] at hok
      simp [Except.isOk, Except.toBool] at hok
    | ok st' =>
      have hent : st'.entries = st.entries ++ (success env f).toList := by
        have := exVal_stepFile_entries_of_decodeOk env f st hf
        rw [hsf] at this
        exact this
      obtain ⟨ih1, ih2⟩ := ih hfs st'
      refine ⟨by simp [runBatch, hsf, ih1], ?_⟩
      simp only [runBatch, hsf]
      rw [ih2, hent]
      cases hsucc : success env f <;>
        simp [List.filterMap_cons, hsucc, List.append_assoc]

/-! ### Claims -/

/-- C1, counterexample: the reply `a{b {} c}` embeds exactly one valid JSON
object, the empty object at offset 4 (every object-valued substring parse
is the empty object), its braces are balanced within the surrounding prose,
and the whole string's braces are balanced — yet the find/rfind parse step
slices `{b {} c}` and fails instead of yielding the embedded object, because
the trailing prose contains a `}`. -/
theorem c1_counterexample :
    jsonLoads ((t1cex.drop 4).take 2) = some (J.obj []) ∧
    bracesBalanced t1cex = true ∧
    allObjSubstringsEmpty t1cex = true ∧
    parse_step t1cex = none :=
  ⟨rfl, rfl, by decide, rfl⟩

/-- C1, amended: the parse step yields the embedded JSON object provided
the leading prose contains no `{` and the trailing prose contains no `}`
(the object itself starting with `{` and ending with `}`); trailing prose
that does contain a `}` can break the parse, as the counterexample shows. -/
theorem c1_parse_of_braceFree_prose (pre s post : List Char) (v : J)
    (hv : jsonLoads s = some v) (hhead : s.head? = some '{')
    (hlast : s.getLast? = some '}') (hpre : '{' ∉ pre)
    (hpost : '}' ∉ post) :
    parse_step (pre ++ s ++ post) = some v := by
  have hne : s ≠ [] := by
    intro e
    rw [e] at hhead
    exact Option.noConfusion hhead
  have hgl : s.getLast hne = '}' := by
    rw [List.getLast?_eq_getLast s hne] at hlast
    exact Option.some.inj hlast
  have hs2 : s = s.dropLast ++ ['}'] := by
    rw [← hgl]
    exact (List.dropLast_append_getLast hne).symm
  have hs1 : s = '{' :: s.tail := by
    cases s with
    | nil => exact absurd rfl hne
    | cons a s' =>
      have ha : a = '{' := by simpa using hhead
      subst ha
      rfl
  unfold parse_step
  rw [codeSlice_embedded pre s post s.tail s.dropLast hs1 hs2 hpre hpost]
  exact hv

/-- C1, witness: a reply with brace-free prose around `\x7b\x7d` parses to
the embedded empty object. -/
theorem c1_witness :
    parse_step (("hi ").toList ++ ("\x7b\x7d").toList ++ (" bye").toList)
      = some (J.obj []) :=
  c1_parse_of_braceFree_prose ("hi ").toList ("\x7b\x7d").toList
    (" bye").toList (J.obj []) rfl rfl rfl (by decide) (by decide)

/-- C2, counterexample: a reply object with the single unknown key `foo` is
stored in `all_extracted_data` verbatim — the record's key set is `[foo]`,
not the declared schema's key set: the declared field `invoice_date` is
missing (not defaulted to null) and the unknown key `foo` is kept. -/
theorem c2_counterexample :
    (runBatch envFoo [fileD] st0).1.entries.map (fun e => objKeys e.2)
      = [[("foo").toList]] ∧
    ("invoice_date").toList ∈ declaredSchema ∧
    ("foo").toList ∉ declaredSchema :=
  ⟨rfl, by decide, by decide⟩

/-- C2, amended: no schema validation exists — the record appended for a
successfully parsed reply is exactly the parsed object, keyed by filename:
missing schema fields are not defaulted and unknown keys are not dropped. -/
theorem c2_record_is_reply_verbatim (env : Env) (f : UpFile) (st : BatchSt)
    (text : List Char) (v : J) (hd : decodeOk f = true)
    (ht : env.transport f.name = .ok text) (hv : parse_step text = some v) :
    (stepFile env f st).isOk = true ∧
    (exVal (stepFile env f st)).entries = st.entries ++ [(f.name, v)] := by
  refine ⟨stepFile_isOk_of_decodeOk env f st hd, ?_⟩
  rw [exVal_stepFile_entries_of_decodeOk env f st hd]
  simp [success, ht, hv]

/-- C2, witness: the `foo` reply is appended verbatim for file `d`. -/
theorem c2_witness :
    (stepFile envFoo fileD st0).isOk = true ∧
    (exVal (stepFile envFoo fileD st0)).entries
      = st0.entries
        ++ [(fileD.name, J.obj [(("foo").toList, J.str ("bar").toList)])] :=
  c2_record_is_reply_verbatim envFoo fileD st0
    (("\x7b\"foo\": \"bar\"\x7d").toList)
    (J.obj [(("foo").toList, J.str ("bar").toList)]) (by decide) rfl rfl

/-- C3, counterexample: in a batch of three documents where the second
one's `Image.open` raises, the uncaught exception aborts the loop — the
batch result has an entry only for document 1 (no failure entries at all,
and document 3 is never processed), not one entry per input document. -/
theorem c3_counterexample :
    (runBatch env0 [fileA, fileB, fileC] st0).2 = true ∧
    (runBatch env0 [fileA, fileB, fileC] st0).1.entries.map Prod.fst
      = [("a").toList] :=
  ⟨rfl, rfl⟩

/-- C3, amended: only caught failures (a raising transport call, an
unparsable reply) are scoped to one document: when every file decodes
cleanly the loop never aborts and `all_extracted_data` collects exactly the
successful documents' records, in order — failed documents contribute no
entry (success or failure) at all.  Decode failures instead raise uncaught
exceptions and abort the remaining documents (see the counterexample). -/
theorem c3_caught_failures_isolated (env : Env) (files : List UpFile)
    (h : ∀ f ∈ files, decodeOk f = true) :
    (runBatch env files st0).2 = false ∧
    (runBatch env files st0).1.entries = files.filterMap (success env) := by
  obtain ⟨h1, h2⟩ := runBatch_all_ok env files h st0
  exact ⟨h1, by simpa [st0] using h2⟩

/-- C3, witness: a two-file batch whose replies never parse still processes
both files without aborting, and records no entries. -/
theorem c3_witness :
    (runBatch envNoJson [fileA, fileD] st0).2 = false ∧
    (runBatch envNoJson [fileA, fileD] st0).1.entries
      = [fileA, fileD].filterMap (success envNoJson) :=
  c3_caught_failures_isolated envNoJson [fileA, fileD] (by decide)

/-- C4: for every reply text, the parse step decodes exactly the substring
that starts at the first occurrence of `{` and ends at the last occurrence
of `}` (inclusive), here written with `drop`/`take` from the occurrence
indices. -/
theorem c4_parse_decodes_first_to_last_slice (t : List Char) (i j : Nat)
    (hi : i < t.length) (hgi : t.getD i ' ' = '{')
    (hfirst : ∀ k, k < i → t.getD k ' ' ≠ '{')
    (hj : j < t.length) (hgj : t.getD j ' ' = '}')
    (hlast2 : ∀ k, k < t.length → j < k → t.getD k ' ' ≠ '}') :
    parse_step t = jsonLoads ((t.drop i).take (j + 1 - i)) := by
  unfold parse_step
  rw [codeSlice_of_idx (firstIdxAux_of_getD hi hgi hfirst)
    (lastIdx_of_getD hj hgj (fun k h1 h2 => hlast2 k h2 h1))]

/-- C4, witness: on `a\x7b\x7db` the parse step decodes the slice between
index 1 (first `\x7b`) and index 2 (last `\x7d`). -/
theorem c4_witness :
    parse_step ("a\x7b\x7db").toList
      = jsonLoads (((("a\x7b\x7db").toList).drop 1).take (2 + 1 - 1)) :=
  c4_parse_decodes_first_to_last_slice ("a\x7b\x7db").toList 1 2 (by decide)
    (by decide) (by decide) (by decide) (by decide) (by decide)

/-- C5: the parse step fails exactly when the text has no `{`/`}` pair or
the first-`{`-to-last-`}` substring is not valid JSON; and on a parse
failure the document yields no record — an error is shown and the program
does not crash. -/
theorem c5_parse_failure_characterization :
    (∀ t : List Char,
      parse_step t = none ↔
        ¬('{' ∈ t ∧ '}' ∈ t) ∨ jsonLoads (sliceFL t) = none) ∧
    (∀ (env : Env) (d : InvoiceDoc) (pgs : List (List Char)) (t : List Char),
      d.mime = .pdf → d.pdfPages = some pgs →
      env.transport d.name = .ok t → parse_step t = none →
      (invoiceRun env d).record = none ∧
      (invoiceRun env d).errorShown = true ∧
      (invoiceRun env d).crashed = false) := by
  constructor
  · intro t
    constructor
    · intro hfail
      by_cases hp : '{' ∈ t ∧ '}' ∈ t
      · right
        rw [← codeSlice_pair_eq_sliceFL hp.1 hp.2]
        exact hfail
      · exact Or.inl hp
    · intro h
      rcases h with hnp | hs
      · exact codeSlice_noPair hnp
      · by_cases hp : '{' ∈ t ∧ '}' ∈ t
        · show jsonLoads (codeSlice t) = none
          rw [codeSlice_pair_eq_sliceFL hp.1 hp.2]
          exact hs
        · exact codeSlice_noPair hp
  · intro env d pgs t hm hp ht hfail
    obtain ⟨nm, mm, pp, io⟩ := d
    dsimp at hm hp ht
    subst hm
    subst hp
    simp [invoiceRun, ht, hfail]

/-- C5, witness: a prose reply with no JSON fails the parse, and the
document shows an error without crashing and produces no record. -/
theorem c5_witness :
    (invoiceRun envNoJson docPdfOne).record = none ∧
    (invoiceRun envNoJson docPdfOne).errorShown = true ∧
    (invoiceRun envNoJson docPdfOne).crashed = false :=
  c5_parse_failure_characterization.2 envNoJson docPdfOne
    [("hello").toList] (("no json here").toList) rfl rfl rfl rfl

/-- C6, counterexample: for a zero-page PDF (`pdfPages = some []`) the
`invoice.py` PDF branch still issues the network call, with empty text
content — extraction does not fail before the network call. -/
theorem c6_counterexample :
    docZero.pdfPages = some [] ∧
    (invoiceRun env0 docZero).payload = some (Payload1.text []) ∧
    (invoiceRun env0 docZero).crashed = false :=
  ⟨rfl, rfl, rfl⟩

/-- C6, amended: whenever the PDF loads, the branch always issues the model
call — with the first page's extracted text, or the empty string for a
zero-page PDF; there is no emptiness guard before the network call. -/
theorem c6_pdf_branch_always_calls (env : Env) (d : InvoiceDoc)
    (pgs : List (List Char)) (hm : d.mime = .pdf)
    (hp : d.pdfPages = some pgs) :
    (invoiceRun env d).payload
      = some (Payload1.text
          (if 0 < pgs.length then pgs.headD [] else [])) := by
  obtain ⟨nm, mm, pp, io⟩ := d
  dsimp at hm hp
  subst hm
  subst hp
  cases ht : env.transport nm with
  | error e => simp [invoiceRun, ht]
  | ok t =>
    cases hv : parse_step t with
    | none => simp [invoiceRun, ht, hv]
    | some v => simp [invoiceRun, ht, hv]

/-- C6, witness: the zero-page PDF gets a call with empty text. -/
theorem c6_witness :
    (invoiceRun env0 docZero).payload
      = some (Payload1.text
          (if 0 < ([] : List (List Char)).length
           then ([] : List (List Char)).headD [] else [])) :=
  c6_pdf_branch_always_calls env0 docZero [] rfl rfl

/-- C7: `pdf_to_images` produces one image per PDF page, in page order,
each rasterized at the fixed 150 DPI; and an image document contributes
exactly one page image, the decoded bitmap, to the extraction request. -/
theorem c7_rasterization :
    (∀ (env : Env) (pages : List Page),
      (pdf_to_images env pages).length = pages.length ∧
      ∀ i, i < pages.length →
        (pdf_to_images env pages).getD i imgD
          = frombytes (env.render ((pages.getD i pageD).content) 150)) ∧
    (∀ (env : Env) (d : InvoiceDoc) (img : Img),
      d.mime = .image → d.imageOk = some img →
      (invoiceRun env d).payload = some (Payload1.image img)) := by
  constructor
  · intro env pages
    constructor
    · simp [pdf_to_images]
    · intro i hi
      simp [pdf_to_images, List.getD_eq_getElem?_getD, List.getElem?_map,
        List.getElem?_eq_getElem hi]
  · intro env d img hm hio
    obtain ⟨nm, mm, pp, io⟩ := d
    dsimp at hm hio
    subst hm
    subst hio
    cases ht : env.transport nm with
    | error e => simp [invoiceRun, ht]
    | ok t =>
      cases hv : parse_step t with
      | none => simp [invoiceRun, ht, hv]
      | some v => simp [invoiceRun, ht, hv]

/-- C7, witness: a one-page PDF yields one 150-DPI image, and an image
document's payload is its decoded bitmap. -/
theorem c7_witness :
    (pdf_to_images env0 [pageOne]).length = 1 ∧
    (pdf_to_images env0 [pageOne]).getD 0 imgD
      = frombytes (env0.render (([pageOne].getD 0 pageD).content) 150) ∧
    (invoiceRun env0 docImg).payload = some (Payload1.image img1) :=
  ⟨(c7_rasterization.1 env0 [pageOne]).1,
   (c7_rasterization.1 env0 [pageOne]).2 0 (by decide),
   c7_rasterization.2 env0 docImg img1 rfl rfl⟩

/-- C8: `pdf_to_images` is deterministic and free of network I/O — its
output depends only on the rasterizer component and the input pages, never
on the transport component of the environment: two runs under environments
agreeing on the rasterizer produce identical page-image sequences. -/
theorem c8_normalization_pure (e1 e2 : Env) (pages : List Page)
    (h : e1.render = e2.render) :
    pdf_to_images e1 pages = pdf_to_images e2 pages := by
  simp [pdf_to_images, h]

/-- C8, witness: an always-raising transport and an always-answering
transport give identical rasterization output. -/
theorem c8_witness :
    pdf_to_images envT1 [pageOne] = pdf_to_images env0 [pageOne] :=
  c8_normalization_pure envT1 env0 [pageOne] rfl

/-- C9, counterexample: in a batch of two uploads where the first one's
decode raises, only one temp file is ever written — the second uploaded
document is never processed and gets no temp file — so "exactly one temp
file per uploaded document" fails (though none persists). -/
theorem c9_counterexample :
    (runBatch env0 [fileB, fileC] st0).2 = true ∧
    (runBatch env0 [fileB, fileC] st0).1.tempsCreated = 1 ∧
    (runBatch env0 [fileB, fileC] st0).1.tempsLive = 0 :=
  ⟨rfl, rfl, rfl⟩

/-- C9, amended: every document whose processing begins gets exactly one
temp file, deleted by the `finally:` block whether the body succeeds,
shows an error, or raises; no temp file outlives the batch even when it
aborts; and each `invoice.py` run writes exactly one temp file and deletes
it on every path.  (Documents after an aborting failure are never
processed and get no temp file — see the counterexample.) -/
theorem c9_temp_lifecycle :
    (∀ (env : Env) (f : UpFile) (st : BatchSt),
      (exVal (stepFile env f st)).tempsCreated = st.tempsCreated + 1 ∧
      (exVal (stepFile env f st)).tempsLive = st.tempsLive) ∧
    (∀ (env : Env) (files : List UpFile) (st : BatchSt),
      (runBatch env files st).1.tempsLive = st.tempsLive) ∧
    (∀ (env : Env) (d : InvoiceDoc),
      (invoiceRun env d).tempsCreated = 1 ∧
      (invoiceRun env d).tempsLive = 0) := by
  refine ⟨stepFile_temps, runBatch_tempsLive, ?_⟩
  intro env d
  obtain ⟨nm, mm, pp, io⟩ := d
  cases mm with
  | pdf =>
    cases pp with
    | none => exact ⟨rfl, rfl⟩
    | some pgs =>
      cases ht : env.transport nm with
      | error e => simp [invoiceRun, ht]
      | ok t =>
        cases hv : parse_step t with
        | none => simp [invoiceRun, ht, hv]
        | some v => simp [invoiceRun, ht, hv]
  | image =>
    cases io with
    | none => exact ⟨rfl, rfl⟩
    | some img =>
      cases ht : env.transport nm with
      | error e => simp [invoiceRun, ht]
      | ok t =>
        cases hv : parse_step t with
        | none => simp [invoiceRun, ht, hv]
        | some v => simp [invoiceRun, ht, hv]

/-- C10: in `multi_paged_invoice.py`, when the first uploaded file is a
PDF the whole run is identical to a run on the first file alone (every
other upload is silently ignored); when the first file is an image, all
uploaded files are opened as images and sent together in one model call
(exactly one call), producing one record for the whole set. -/
theorem c10_first_file_dispatch (env : Env) (f : MFile)
    (rest : List MFile) :
    (f.mime = .pdf → multiRun env (f :: rest) = multiRun env [f]) ∧
    (f.mime = .image → ∀ imgs, seqImgs (f :: rest) = some imgs →
      (multiRun env (f :: rest)).payload = some (MPayload.images imgs) ∧
      (multiRun env (f :: rest)).callCount = 1 ∧
      ∀ t v, env.transport f.name = .ok t → parse_step t = some v →
        (multiRun env (f :: rest)).record = some v) := by
  obtain ⟨nm, mm, ct, pp, io⟩ := f
  constructor
  · intro hm
    dsimp at hm
    subst hm
    rfl
  · intro hm imgs hseq
    dsimp at hm
    subst hm
    refine ⟨?_, ?_, ?_⟩
    · cases ht : env.transport nm with
      | error e => simp [multiRun, hseq, ht]
      | ok t =>
        cases hv : parse_step t with
        | none => simp [multiRun, hseq, ht, hv]
        | some v => simp [multiRun, hseq, ht, hv]
    · cases ht : env.transport nm with
      | error e => simp [multiRun, hseq, ht]
      | ok t =>
        cases hv : parse_step t with
        | none => simp [multiRun, hseq, ht, hv]
        | some v => simp [multiRun, hseq, ht, hv]
    · intro t v ht hv
      simp [multiRun, hseq, ht, hv]

/-- C10, witness: with a PDF first, a two-file upload runs exactly as the
first file alone; with images, both files' bitmaps go into the one call
and the reply parses to the single record. -/
theorem c10_witness :
    multiRun env0 [mf1, mf2] = multiRun env0 [mf1] ∧
    (multiRun env0 [mf2, mf3]).payload
      = some (MPayload.images [img1, img1]) ∧
    (multiRun env0 [mf2, mf3]).callCount = 1 ∧
    (multiRun env0 [mf2, mf3]).record = some (J.obj []) :=
  ⟨(c10_first_file_dispatch env0 mf1 [mf2]).1 rfl,
   ((c10_first_file_dispatch env0 mf2 [mf3]).2 rfl [img1, img1] rfl).1,
   ((c10_first_file_dispatch env0 mf2 [mf3]).2 rfl [img1, img1] rfl).2.1,
   ((c10_first_file_dispatch env0 mf2 [mf3]).2 rfl [img1, img1] rfl).2.2
     (("\x7b\x7d").toList) (J.obj []) rfl rfl⟩

end Invoice
